import Mathlib

/-!
Verification development for the EasyCore application-composition facade
(src/easycore.js).  Two shallow embeddings are developed:

* `EC` — the module/extension registry and lifecycle state machine
  (`register`, `init`, `start`, `stop`, the private registration callbacks
  `registerStandardModule` / `registerExtension`, and `startModule` /
  `stopModule`).  Host-supplied creators and lifecycle hooks are opaque
  constructible units; their only behaviour visible to the core is
  "return an instance" or "throw", which is modelled by explicit outcome
  data.  Event-bus emissions (`this.trigger(...)`) are modelled as an
  append-only event trace; `console.log` mirroring is a side channel with
  no effect on core state and is not modelled.

* `EC.H` — a mutable-heap model of the jQuery-style `extend` merge
  (lines 86-148 of the source), needed for the configuration-merge
  properties: deep/shallow modes, the plain-object/array classification,
  clone-or-reuse of target slots, and the `target === copy` guard.
-/

namespace EC

/-- Outcome of invoking an opaque host-supplied function (a lifecycle hook):
it either returns normally or throws a fault. -/
inductive Outcome where
  | ok
  | throws (err : String)
deriving DecidableEq

/-- A constructed module/extension instance.  The registry only ever looks at
whether `start` / `stop` hooks exist (`getType(instance.start) == 'function'`)
and what happens when they are invoked. -/
structure Instance where
  start : Option Outcome
  stop : Option Outcome
deriving DecidableEq

/-- Outcome of `new creator(...)`: an instance, or a thrown fault. -/
inductive CResult where
  | made (i : Instance)
  | throws (err : String)
deriving DecidableEq

/-- An opaque host-supplied constructible unit.  `cid` is an identity tag so
that distinct creators can be told apart; `run` is the outcome of invoking
it with `new`. -/
structure Creator where
  cid : Nat
  run : CResult
deriving DecidableEq

/-- A module-pool entry: `{ creator: ..., instance: null }` (source lines
321-324).  `creator` is `none` when a non-constructible value was stored by
the lenient registration path.  Field `inst` models `instance`
(`instance` is reserved in Lean). -/
structure MEntry where
  creator : Option Creator
  inst : Option Instance
deriving DecidableEq

/-- Events emitted on the core's event bus via `this.trigger(...)`.
`error` / `warning` carry the trigger site and message, plus the caught
fault when one is attached as an extra argument.  The lifecycle checkpoint
events carry the facade itself, which is not part of the modelled state. -/
inductive Event where
  | error (site msg : String) (fault : Option String)
  | warning (site msg : String) (fault : Option String)
  | afterInit
  | afterStart
  | afterStop
deriving DecidableEq

/-- Per-module configuration slice; the lifecycle only reads
`autostart === false`, so only that field is modelled.  `some false`
means the literal value `false`; `some true` the literal `true`; `none`
covers an absent or non-boolean value (for which `=== false` is false). -/
structure MConf where
  autostart : Option Bool

/-- Merged core configuration (`conf` in the source closure).  Only the
fields the modelled operations read are kept: `debug`,
`logErrorsViaConsole` (gates the unmodelled console mirror) and the
per-module configuration pool. -/
structure Conf where
  debug : Bool
  logErrorsViaConsole : Bool
  modules : String → Option MConf

/-- The core's mutable state: the two registration pools (insertion-ordered,
matching `for..in` enumeration of the string-keyed pool objects), the
emitted event trace, whether `init` has been sealed into a no-op
(`this.init = function(){ return this; }`), ghost traces of which creators
were invoked and which start hooks ran, and whether the Mediator
collaborator is available. -/
structure MState where
  modules : List (String × MEntry)
  extensions : List (String × Instance)
  events : List Event
  initDone : Bool
  invoked : List Nat
  started : List String
  hasMediator : Bool
deriving DecidableEq

/-- An argument in an `id` position: a string, or some non-string value
(whose exact shape the core never inspects beyond `getType(id) != 'string'`). -/
inductive RId where
  | str (s : String)
  | nonstr
deriving DecidableEq

/-- The string that ends up concatenated into a warning message for an id
(JS coerces; the exact coercion of a non-string is immaterial to the core). -/
def idString : RId → String
  | RId.str s => s
  | RId.nonstr => "[object]"

/-- `getType(id) == 'string' && id.length` (source line 381 negated). -/
def idOk : RId → Bool
  | RId.str s => s != ""
  | RId.nonstr => false

/-- The second argument of `register(id, arg1, arg2)`: a constructible unit,
a type tag string, or anything else. -/
inductive RegArg where
  | fnArg (c : Creator)
  | tyArg (t : String)
  | otherArg
deriving DecidableEq

/-- Keys of the default `moduleTypeMap` (source lines 190-193). -/
inductive RegKind where
  | standard
  | extension
deriving DecidableEq

/-- The argument of `start` / `stop`: a single string id, a list of ids, or
anything else (absent, a number, ...) which selects the walk over the
whole pool. -/
inductive LifeArg where
  | strA (s : String)
  | listA (xs : List RId)
  | elseA
deriving DecidableEq

/-- Property lookup in an insertion-ordered string-keyed pool. -/
def plookup {α : Type} : List (String × α) → String → Option α
  | [], _ => none
  | p :: t, k => if p.1 = k then some p.2 else plookup t k

/-- `registerStandardModule` (source lines 315-325): duplicate ids warn and
are not overwritten; otherwise the creator is stored lazily with
`instance: null`. -/
def registerStandardModule (id : String) (creator : Option Creator)
    (s : MState) : MState :=
  if (plookup s.modules id).isSome then
    { s with events := s.events ++
        [Event.warning "registerStandardModule" ("Given id exists already: " ++ id) none] }
  else
    { s with modules := s.modules ++ [(id, MEntry.mk creator none)] }

/-- `registerExtension` (source lines 339-357): duplicate ids report an
`error`; otherwise the creator is invoked immediately inside a
try/catch — success stores the instance, a fault (including the
`TypeError` from `new` on a non-constructible creator) is reported as an
`error` event and nothing is stored. -/
def registerExtension (id : String) (creator : Option Creator)
    (s : MState) : MState :=
  if (plookup s.extensions id).isSome then
    { s with events := s.events ++
        [Event.error "registerExtension" ("Given id exists already: " ++ id) none] }
  else
    match creator with
    | none =>
      { s with events := s.events ++
          [Event.error "registerExtension" id (some "TypeError")] }
    | some c =>
      match c.run with
      | CResult.made i =>
        { s with extensions := s.extensions ++ [(id, i)],
                 invoked := s.invoked ++ [c.cid] }
      | CResult.throws err =>
        { s with invoked := s.invoked ++ [c.cid],
                 events := s.events ++ [Event.error "registerExtension" id (some err)] }

/-- `register` (source lines 367-393).  Resolves the type tag and creator,
validates the id (warning + early return on violation), warns on a
non-constructible creator but proceeds, and finally dispatches through
`moduleTypeMap` — when the resolved tag is not a key of the map this last
call is `undefined.call(...)`, a `TypeError` raised to the caller, returned
here as a `some` fault alongside the state accumulated so far. -/
def register (id : RId) (a1 : RegArg) (a2 : Option Creator)
    (s : MState) : MState × Option String :=
  let r : Option RegKind × Option Creator × MState :=
    match a1 with
    | RegArg.fnArg c => (some RegKind.standard, some c, s)
    | RegArg.tyArg t =>
      if t = "standard" then (some RegKind.standard, a2, s)
      else if t = "extension" then (some RegKind.extension, a2, s)
      else
        (none, none,
         { s with events := s.events ++
             [Event.warning "register"
               ("Given module type does not exist: " ++ t ++ "(id: " ++ idString id ++ ")") none] })
    | RegArg.otherArg => (none, a2, s)
  let kindR := r.1
  let creator := r.2.1
  let s1 := r.2.2
  if idOk id = false then
    ({ s1 with events := s1.events ++
        [Event.warning "register"
          ("Given id is not of type string or empty: " ++ idString id) none] }, none)
  else
    let s2 :=
      if creator.isNone then
        { s1 with events := s1.events ++
            [Event.warning "register"
              ("Given creator not of type function: " ++ idString id) none] }
      else s1
    match kindR with
    | some RegKind.standard => (registerStandardModule (idString id) creator s2, none)
    | some RegKind.extension => (registerExtension (idString id) creator s2, none)
    | none => (s2, some "TypeError: moduleTypeMap[type] is not a function")

/-- The module-construction walk of `init` (source lines 215-243): iterate
the pool in insertion order; `break` out of the whole walk on the first
already-instantiated entry; otherwise construct the module inside a
try/catch, storing the instance on success and reporting an `error` event
carrying the module id and the fault on a throw.  Returns the updated
pool, the emitted events and the invoked creator ids.  Sandbox creation
and the debug-mode `module.sandbox` attachment touch no modelled state. -/
def initWalk : List (String × MEntry) → List (String × MEntry) × List Event × List Nat
  | [] => ([], [], [])
  | (id, e) :: rest =>
    if e.inst.isSome then ((id, e) :: rest, [], [])
    else
      let step : MEntry × List Event × List Nat :=
        match e.creator with
        | none =>
          (e, [Event.error "initModule" ("creation and init function: " ++ id) (some "TypeError")], [])
        | some c =>
          match c.run with
          | CResult.made i => ({ e with inst := some i }, [], [c.cid])
          | CResult.throws err =>
            (e, [Event.error "initModule" ("creation and init function: " ++ id) (some err)], [c.cid])
      let w := initWalk rest
      ((id, step.1) :: w.1, step.2.1 ++ w.2.1, step.2.2 ++ w.2.2)

/-- `init` (source lines 200-252).  Once sealed it is the no-op
`function(){ return this; }`; otherwise it throws when the Mediator
collaborator is missing, runs the construction walk, emits `afterInit`
and seals itself. -/
def init (conf : Conf) (s : MState) : MState × Option String :=
  if s.initDone then (s, none)
  else if s.hasMediator then
    let w := initWalk s.modules
    ({ s with modules := w.1,
              events := s.events ++ w.2.1 ++ [Event.afterInit],
              invoked := s.invoked ++ w.2.2,
              initDone := true }, none)
  else (s, some "EasyCore needs the Mediator")

/-- `startModule` (source lines 401-412): warn on a non-string or unknown id;
otherwise invoke the instance's start hook when the instance exists and
exposes one.  The hook call is NOT wrapped in try/catch, so a throwing
hook propagates to the caller (`some err`).  The ghost `started` trace
records each actual hook invocation. -/
def startModule (mid : RId) (s : MState) : MState × Option String :=
  match mid with
  | RId.nonstr =>
    ({ s with events := s.events ++
        [Event.warning "startModule"
          ("Given module id is not of type string or does not exist: " ++ idString mid) none] }, none)
  | RId.str id =>
    match plookup s.modules id with
    | none =>
      ({ s with events := s.events ++
          [Event.warning "startModule"
            ("Given module id is not of type string or does not exist: " ++ id) none] }, none)
    | some e =>
      match e.inst with
      | none => (s, none)
      | some i =>
        match i.start with
        | none => (s, none)
        | some Outcome.ok => ({ s with started := s.started ++ [id] }, none)
        | some (Outcome.throws err) => ({ s with started := s.started ++ [id] }, some err)

/-- The list walk of `start` over explicitly named ids; a thrown start-hook
fault aborts the remaining iterations (no catch in the source loop). -/
def startSeq : List RId → MState → MState × Option String
  | [], s => (s, none)
  | m :: rest, s =>
    match startModule m s with
    | (s', none) => startSeq rest s'
    | (s', some e) => (s', some e)

/-- `conf.modules[module] && conf.modules[module].autostart === false`
(source line 272). -/
def autostartOff (conf : Conf) (id : String) : Bool :=
  match conf.modules id with
  | some mc => mc.autostart == some false
  | none => false

/-- The all-modules walk of `start` (source lines 270-274): registration
order, skipping entries whose configuration opts out with
`autostart: false`; a thrown hook aborts the rest of the walk. -/
def startAll (conf : Conf) : List String → MState → MState × Option String
  | [], s => (s, none)
  | id :: rest, s =>
    if autostartOff conf id then startAll conf rest s
    else
      match startModule (RId.str id) s with
      | (s', none) => startAll conf rest s'
      | (s', some e) => (s', some e)

/-- `start` (source lines 260-279): dispatch on the argument shape, then
emit `afterStart` — unless a start hook threw, in which case the fault
propagates before the trigger is reached. -/
def start (arg : LifeArg) (conf : Conf) (s : MState) : MState × Option String :=
  let r : MState × Option String :=
    match arg with
    | LifeArg.strA id => startModule (RId.str id) s
    | LifeArg.listA xs => startSeq xs s
    | LifeArg.elseA => startAll conf (s.modules.map Prod.fst) s
  match r with
  | (s', none) => ({ s' with events := s'.events ++ [Event.afterStart] }, none)
  | (s', some e) => (s', some e)

/-- Clear the stored instance of entry `id` (`module.instance = null`). -/
def clearInst (ms : List (String × MEntry)) (id : String) : List (String × MEntry) :=
  ms.map (fun p => if p.1 = id then (p.1, { p.2 with inst := none }) else p)

/-- `stopModule` (source lines 419-439): warn on a non-string or unknown id;
otherwise, when the instance is non-null and exposes a stop hook, invoke
it inside a try/catch — on success the instance reference is cleared to
null, on a fault a `warning` event carrying the id and the fault is
emitted and the instance reference is left intact. -/
def stopModule (mid : RId) (s : MState) : MState :=
  match mid with
  | RId.nonstr =>
    { s with events := s.events ++
        [Event.warning "stopModule"
          ("Given module id is not of type string or does not exist: " ++ idString mid) none] }
  | RId.str id =>
    match plookup s.modules id with
    | none =>
      { s with events := s.events ++
          [Event.warning "stopModule"
            ("Given module id is not of type string or does not exist: " ++ id) none] }
    | some e =>
      match e.inst with
      | none => s
      | some i =>
        match i.stop with
        | none => s
        | some Outcome.ok => { s with modules := clearInst s.modules id }
        | some (Outcome.throws err) =>
          { s with events := s.events ++
              [Event.warning "stopModule" ("stop function: " ++ id) (some err)] }

/-- `stop` (source lines 287-304): dispatch on the argument shape (every
per-module stop is internally fault-isolated), then emit `afterStop`.
Nothing in `stop` can throw, so the fault component is always `none`. -/
def stop (arg : LifeArg) (s : MState) : MState × Option String :=
  let s' : MState :=
    match arg with
    | LifeArg.strA id => stopModule (RId.str id) s
    | LifeArg.listA xs => xs.foldl (fun acc m => stopModule m acc) s
    | LifeArg.elseA => (s.modules.map Prod.fst).foldl (fun acc id => stopModule (RId.str id) acc) s
  ({ s' with events := s'.events ++ [Event.afterStop] }, none)

/-- The `EasyCore` constructor (source lines 156-461).  Before the facade is
assembled it evaluates `new Mediator({exposeChannel: conf.debug})` (line
442); when the Mediator collaborator is absent this is `new undefined`,
a `TypeError` raised out of the constructor, so no facade is produced. -/
def construct (hasMediator : Bool) (conf : Conf) : Except String MState :=
  if hasMediator then
    Except.ok
      { modules := [], extensions := [], events := [], initDone := false,
        invoked := [], started := [], hasMediator := true }
  else Except.error "TypeError: Mediator is not a constructor"

/-! Pool-lookup and `initWalk` lemmas. -/

theorem plookup_mem {α : Type} (l : List (String × α)) (k : String) (v : α)
    (h : plookup l k = some v) : (k, v) ∈ l := by
  induction l with
  | nil => simp [plookup] at h
  | cons p t ih =>
    rw [plookup] at h
    by_cases hk : p.1 = k
    · simp [hk] at h
      refine List.mem_cons.mpr (Or.inl ?_)
      rw [← hk, ← h]
    · simp [hk] at h
      exact List.mem_cons_of_mem _ (ih h)

/-- On a first-call pool (no instance yet, unique ids), `init`'s walk stores
under each id exactly the outcome of invoking the creator stored there. -/
theorem initWalk_pool_lookup (l : List (String × MEntry))
    (hfresh : ∀ p ∈ l, p.2.inst = none)
    (hnd : (l.map Prod.fst).Nodup) :
    ∀ id c, (id, MEntry.mk (some c) none) ∈ l →
      plookup (initWalk l).1 id =
        some (MEntry.mk (some c)
          (match c.run with
           | CResult.made i => some i
           | CResult.throws _ => none)) := by
  induction l with
  | nil => intro id c h; simp at h
  | cons p t ih =>
    intro id c hmem
    obtain ⟨id0, e0⟩ := p
    have h0 : e0.inst = none := hfresh (id0, e0) (List.mem_cons_self _ _)
    have hnd2 : id0 ∉ t.map Prod.fst ∧ (t.map Prod.fst).Nodup := by
      rw [List.map_cons, List.nodup_cons] at hnd
      exact hnd
    rcases List.mem_cons.mp hmem with hhead | htail
    · have hid : id = id0 := congrArg Prod.fst hhead
      have he : MEntry.mk (some c) none = e0 := congrArg Prod.snd hhead
      subst hid
      subst he
      cases hr : c.run <;> simp [initWalk, plookup, hr]
    · have hidne : id0 ≠ id := by
        intro h
        exact hnd2.1 (h ▸ List.mem_map_of_mem Prod.fst htail)
      have hrec := ih (fun q hq => hfresh q (List.mem_cons_of_mem _ hq))
        hnd2.2 id c htail
      simp [initWalk, h0, plookup, hidne, hrec]

/-- A throwing creator makes the walk emit the `error` event carrying the
module id and the fault. -/
theorem initWalk_event (l : List (String × MEntry))
    (hfresh : ∀ p ∈ l, p.2.inst = none) :
    ∀ id c err, (id, MEntry.mk (some c) none) ∈ l → c.run = CResult.throws err →
      Event.error "initModule" ("creation and init function: " ++ id) (some err)
        ∈ (initWalk l).2.1 := by
  induction l with
  | nil => intro id c err h; simp at h
  | cons p t ih =>
    intro id c err hmem hrun
    obtain ⟨id0, e0⟩ := p
    have h0 : e0.inst = none := hfresh (id0, e0) (List.mem_cons_self _ _)
    rcases List.mem_cons.mp hmem with hhead | htail
    · have hid : id = id0 := congrArg Prod.fst hhead
      have he : MEntry.mk (some c) none = e0 := congrArg Prod.snd hhead
      subst hid
      subst he
      simp [initWalk, hrun]
    · have := ih (fun q hq => hfresh q (List.mem_cons_of_mem _ hq)) id c err htail hrun
      simp [initWalk, h0]
      right
      simpa using this

/-- Every stored creator of a fresh pool gets invoked by the walk. -/
theorem initWalk_invoked (l : List (String × MEntry))
    (hfresh : ∀ p ∈ l, p.2.inst = none) :
    ∀ id c, (id, MEntry.mk (some c) none) ∈ l → c.cid ∈ (initWalk l).2.2 := by
  induction l with
  | nil => intro id c h; simp at h
  | cons p t ih =>
    intro id c hmem
    obtain ⟨id0, e0⟩ := p
    have h0 : e0.inst = none := hfresh (id0, e0) (List.mem_cons_self _ _)
    rcases List.mem_cons.mp hmem with hhead | htail
    · have he : MEntry.mk (some c) none = e0 := congrArg Prod.snd hhead
      subst he
      cases hr : c.run <;> simp [initWalk, hr]
    · have hrec := ih (fun q hq => hfresh q (List.mem_cons_of_mem _ hq)) id c htail
      cases hr : e0.creator with
      | none => simpa [initWalk, h0, hr] using hrec
      | some c0 => cases hr2 : c0.run <;> simp [initWalk, h0, hr, hr2, hrec]

/-- Shape of a completed (unsealed, Mediator present) `init` call. -/
theorem init_run (conf : Conf) (s : MState)
    (hm : s.hasMediator = true) (hnotdone : s.initDone = false) :
    init conf s =
      ({ s with modules := (initWalk s.modules).1,
                events := s.events ++ (initWalk s.modules).2.1 ++ [Event.afterInit],
                invoked := s.invoked ++ (initWalk s.modules).2.2,
                initDone := true }, none) := by
  simp [init, hnotdone, hm]

/-! Concrete fixtures used by witnesses and counterexamples. -/

def confW : Conf :=
  { debug := false, logErrorsViaConsole := true, modules := fun _ => none }

def instW : Instance := { start := some Outcome.ok, stop := some Outcome.ok }

def creatorW : Creator := { cid := 1, run := CResult.made instW }

def creatorBoom : Creator := { cid := 2, run := CResult.throws "boom" }

def sW : MState :=
  { modules := [("a", MEntry.mk (some creatorW) none)], extensions := [],
    events := [], initDone := false, invoked := [], started := [],
    hasMediator := true }

def sC1 : MState :=
  { modules := [("a", MEntry.mk (some creatorBoom) none),
                ("b", MEntry.mk (some creatorW) none)],
    extensions := [], events := [], initDone := false, invoked := [],
    started := [], hasMediator := true }

/-! Claim theorems. -/

/-- C9: when the Mediator collaborator is absent, constructing the core is a
fatal fault at construction time — the constructor raises (the `new
Mediator` on source line 442 is a `TypeError`) and no facade is produced. -/
theorem construct_requires_mediator (conf : Conf) :
    construct false conf = Except.error "TypeError: Mediator is not a constructor" := rfl

/-- C2: `init` is idempotent after its first completion — every later call
performs no construction and no other state change and returns the facade
itself, leaving all instances constructed by the first call untouched. -/
theorem init_idempotent_after_first (conf : Conf) (s : MState)
    (hm : s.hasMediator = true) :
    init conf ((init conf s).1) = ((init conf s).1, none) := by
  by_cases hd : s.initDone
  · simp [init, hd]
  · simp [init, hd, hm]

/-- C2 witness at a concrete one-module state. -/
theorem init_idempotent_after_first_witness :
    init confW ((init confW sW).1) = ((init confW sW).1, none) :=
  init_idempotent_after_first confW sW rfl

/-- C1: a creator throwing during the first `init` call is caught (no fault
reaches the caller), an `error` event carrying the faulting id and the
original fault is emitted, and every other registered module whose creator
does not throw still gets constructed (its entry's instance becomes
non-null). -/
theorem init_fault_isolated (conf : Conf) (s : MState)
    (fid : String) (fc : Creator) (err : String)
    (hm : s.hasMediator = true) (hnotdone : s.initDone = false)
    (hfresh : ∀ p ∈ s.modules, p.2.inst = none)
    (hnd : (s.modules.map Prod.fst).Nodup)
    (hmem : (fid, MEntry.mk (some fc) none) ∈ s.modules)
    (hthrow : fc.run = CResult.throws err) :
    (init conf s).2 = none
    ∧ Event.error "initModule" ("creation and init function: " ++ fid) (some err)
        ∈ (init conf s).1.events
    ∧ ∀ id c i, (id, MEntry.mk (some c) none) ∈ s.modules → c.run = CResult.made i →
        plookup (init conf s).1.modules id = some (MEntry.mk (some c) (some i)) := by
  rw [init_run conf s hm hnotdone]
  refine ⟨rfl, ?_, ?_⟩
  · have := initWalk_event s.modules hfresh fid fc err hmem hthrow
    simp [List.mem_append]
    tauto
  · intro id c i hmem2 hrun
    have := initWalk_pool_lookup s.modules hfresh hnd id c hmem2
    rw [hrun] at this
    simpa using this

/-- C1 witness: module `a` throws "boom", module `b` still gets built. -/
theorem init_fault_isolated_witness :
    (init confW sC1).2 = none
    ∧ Event.error "initModule" ("creation and init function: " ++ "a") (some "boom")
        ∈ (init confW sC1).1.events
    ∧ plookup (init confW sC1).1.modules "b" = some (MEntry.mk (some creatorW) (some instW)) := by
  have h := init_fault_isolated confW sC1 "a" creatorBoom "boom" rfl rfl
    (by decide) (by decide) (by decide) rfl
  exact ⟨h.1, h.2.1, h.2.2 "b" creatorW instW (by decide) rfl⟩

/-- C4: registering a second module under an already-present id is rejected
with a `warning` event and does not overwrite the pool entry; the creator
stored by the first registration is the one `init` invokes to construct
the module. -/
theorem register_duplicate_id_rejected (conf : Conf) (s : MState)
    (id : String) (c1 c2 : Creator)
    (hdup : plookup s.modules id = some (MEntry.mk (some c1) none))
    (hm : s.hasMediator = true) (hnotdone : s.initDone = false)
    (hfresh : ∀ p ∈ s.modules, p.2.inst = none)
    (hnd : (s.modules.map Prod.fst).Nodup)
    (hid : id ≠ "") :
    register (RId.str id) (RegArg.fnArg c2) none s
      = ({ s with events := s.events ++
            [Event.warning "registerStandardModule" ("Given id exists already: " ++ id) none] },
         none)
    ∧ ∀ i, c1.run = CResult.made i →
        plookup (init conf (register (RId.str id) (RegArg.fnArg c2) none s).1).1.modules id
          = some (MEntry.mk (some c1) (some i))
        ∧ c1.cid ∈ (init conf (register (RId.str id) (RegArg.fnArg c2) none s).1).1.invoked := by
  have hreg : register (RId.str id) (RegArg.fnArg c2) none s
      = ({ s with events := s.events ++
            [Event.warning "registerStandardModule" ("Given id exists already: " ++ id) none] },
         none) := by
    simp [register, idOk, idString, hid, registerStandardModule, hdup]
  refine ⟨hreg, ?_⟩
  intro i hi
  have hmem : (id, MEntry.mk (some c1) none) ∈ s.modules := plookup_mem _ _ _ hdup
  have h2 : (register (RId.str id) (RegArg.fnArg c2) none s).1
      = { s with events := s.events ++
            [Event.warning "registerStandardModule" ("Given id exists already: " ++ id) none] } := by
    rw [hreg]
  rw [h2, init_run conf
    { s with events := s.events ++
        [Event.warning "registerStandardModule" ("Given id exists already: " ++ id) none] }
    hm hnotdone]
  constructor
  · have := initWalk_pool_lookup s.modules hfresh hnd id c1 hmem
    rw [hi] at this
    simpa using this
  · have := initWalk_invoked s.modules hfresh id c1 hmem
    simp [List.mem_append]
    tauto

/-- C4 witness: duplicate registration of `a` is rejected and `init` builds
`a` from the first creator. -/
theorem register_duplicate_id_rejected_witness :
    register (RId.str "a") (RegArg.fnArg creatorBoom) none sW
      = ({ sW with events :=
            [Event.warning "registerStandardModule" ("Given id exists already: " ++ "a") none] },
         none)
    ∧ plookup (init confW (register (RId.str "a") (RegArg.fnArg creatorBoom) none sW).1).1.modules "a"
        = some (MEntry.mk (some creatorW) (some instW)) := by
  have h := register_duplicate_id_rejected confW sW "a" creatorW creatorBoom
    (by decide) rfl rfl (by decide) (by decide) (by decide)
  exact ⟨h.1, (h.2 instW rfl).1⟩

/-! Stop: claim C3. -/

theorem plookup_clearInst (ms : List (String × MEntry)) (id : String) :
    plookup (clearInst ms id) id
      = (plookup ms id).map (fun e => { e with inst := none }) := by
  induction ms with
  | nil => simp [clearInst, plookup]
  | cons p t ih =>
    simp only [clearInst] at ih ⊢
    by_cases h : p.1 = id <;> simp [plookup, h, ih]

/-- C3: stopping a module whose instance has a stop hook leaves the stored
instance untouched and emits a `warning` carrying the id and the fault
when the hook throws (nothing propagates to the caller of `stop`); when
the hook returns normally the instance reference is cleared to null. -/
theorem stop_hook_fault_keeps_instance (s : MState) (id : String)
    (e : MEntry) (i : Instance) (o : Outcome)
    (hl : plookup s.modules id = some e) (hi : e.inst = some i)
    (ho : i.stop = some o) :
    (stop (LifeArg.strA id) s).2 = none
    ∧ (∀ err, o = Outcome.throws err →
        plookup (stop (LifeArg.strA id) s).1.modules id = some e
        ∧ Event.warning "stopModule" ("stop function: " ++ id) (some err)
            ∈ (stop (LifeArg.strA id) s).1.events)
    ∧ (o = Outcome.ok →
        plookup (stop (LifeArg.strA id) s).1.modules id = some { e with inst := none }) := by
  refine ⟨rfl, ?_, ?_⟩
  · intro err ho2
    subst ho2
    have hsm : stopModule (RId.str id) s
        = { s with events := s.events ++
            [Event.warning "stopModule" ("stop function: " ++ id) (some err)] } := by
      simp [stopModule, hl, hi, ho]
    constructor
    · simp [stop, hsm, hl]
    · simp [stop, hsm, List.mem_append]
  · intro ho2
    subst ho2
    have hsm : stopModule (RId.str id) s = { s with modules := clearInst s.modules id } := by
      simp [stopModule, hl, hi, ho]
    simp [stop, hsm, plookup_clearInst, hl]

def instBad : Instance := { start := some Outcome.ok, stop := some (Outcome.throws "stopboom") }

def sC3 : MState :=
  { modules := [("a", MEntry.mk (some creatorW) (some instBad))],
    extensions := [], events := [], initDone := true, invoked := [],
    started := [], hasMediator := true }

/-- C3 witness: a throwing stop hook on `a` keeps the instance and warns. -/
theorem stop_hook_fault_keeps_instance_witness :
    (stop (LifeArg.strA "a") sC3).2 = none
    ∧ plookup (stop (LifeArg.strA "a") sC3).1.modules "a"
        = some (MEntry.mk (some creatorW) (some instBad))
    ∧ Event.warning "stopModule" ("stop function: " ++ "a") (some "stopboom")
        ∈ (stop (LifeArg.strA "a") sC3).1.events := by
  have h := stop_hook_fault_keeps_instance sC3 "a"
    (MEntry.mk (some creatorW) (some instBad)) instBad (Outcome.throws "stopboom")
    (by decide) rfl rfl
  exact ⟨h.1, (h.2.1 "stopboom" rfl).1, (h.2.1 "stopboom" rfl).2⟩

/-! Registration with an invalid id: claim C6 (corrected). -/

def s0 : MState :=
  { modules := [], extensions := [], events := [], initDone := false,
    invoked := [], started := [], hasMediator := true }

def isErrEv : Event → Bool
  | Event.error _ _ _ => true
  | _ => false

/-- C6 counterexample: registering an extension under the empty-string id is
a no-op that raises nothing — but the event reported is a `warning`, not
the `error` event the claim requires. -/
theorem register_extension_bad_id_no_error_event :
    (register (RId.str "") (RegArg.tyArg "extension") (some creatorW) s0).2 = none
    ∧ (register (RId.str "") (RegArg.tyArg "extension") (some creatorW) s0).1.extensions = []
    ∧ (register (RId.str "") (RegArg.tyArg "extension") (some creatorW) s0).1.invoked = []
    ∧ ((register (RId.str "") (RegArg.tyArg "extension") (some creatorW) s0).1.events.all
        (fun ev => !isErrEv ev)) = true := by
  decide

/-- C6 (amended): registering an extension whose id is not a non-empty
string reports a `warning` event (source line 382, not an `error`), the
operation is a no-op — pools, invocation trace and everything else are
unchanged — and no fault is raised to the caller. -/
theorem register_extension_bad_id_warns (s : MState) (id : RId) (a2 : Option Creator)
    (hbad : idOk id = false) :
    register id (RegArg.tyArg "extension") a2 s
      = ({ s with events := s.events ++
            [Event.warning "register"
              ("Given id is not of type string or empty: " ++ idString id) none] }, none) := by
  simp [register, hbad]

/-- C6 witness at the empty-string id. -/
theorem register_extension_bad_id_warns_witness :
    register (RId.str "") (RegArg.tyArg "extension") (some creatorW) s0
      = ({ s0 with events := s0.events ++
            [Event.warning "register"
              ("Given id is not of type string or empty: " ++ idString (RId.str "")) none] }, none) :=
  register_extension_bad_id_warns s0 (RId.str "") (some creatorW) rfl

/-! Registration with an unknown type tag: claim C10 (corrected). -/

/-- C10 counterexample: with an unknown type tag AND an invalid id the call
warns about the type but then returns normally from the id check — no
fault reaches the caller. -/
theorem register_unknown_type_invalid_id_no_fault :
    (register RId.nonstr (RegArg.tyArg "bogus") none s0).2 = none
    ∧ Event.warning "register"
        ("Given module type does not exist: " ++ "bogus" ++ "(id: " ++ idString RId.nonstr ++ ")") none
        ∈ (register RId.nonstr (RegArg.tyArg "bogus") none s0).1.events := by
  decide

/-- C10 (amended): for a valid non-empty-string id, a type tag that is not a
key of `moduleTypeMap` makes `register` emit the unknown-type `warning`
(and, since no creator was resolved, the invalid-creator warning), then
still attempt the dispatch, which raises a `TypeError` to the caller. -/
theorem register_unknown_type_faults (s : MState) (id t : String) (a2 : Option Creator)
    (hid : id ≠ "") (h1 : t ≠ "standard") (h2 : t ≠ "extension") :
    register (RId.str id) (RegArg.tyArg t) a2 s
      = ({ s with events := s.events ++
            [Event.warning "register"
              ("Given module type does not exist: " ++ t ++ "(id: " ++ id ++ ")") none,
             Event.warning "register" ("Given creator not of type function: " ++ id) none] },
         some "TypeError: moduleTypeMap[type] is not a function") := by
  simp [register, idOk, idString, hid, h1, h2]

/-- C10 witness at id `x`, tag `bogus`. -/
theorem register_unknown_type_faults_witness :
    register (RId.str "x") (RegArg.tyArg "bogus") none s0
      = ({ s0 with events := s0.events ++
            [Event.warning "register"
              ("Given module type does not exist: " ++ "bogus" ++ "(id: " ++ "x" ++ ")") none,
             Event.warning "register" ("Given creator not of type function: " ++ "x") none] },
         some "TypeError: moduleTypeMap[type] is not a function") :=
  register_unknown_type_faults s0 "x" "bogus" none (by decide) (by decide) (by decide)

/-! Start: claim C7 (corrected). -/

/-- `module.instance && getType(module.instance.start) == 'function'`:
the entry has something for `startModule` to invoke. -/
def startable (e : MEntry) : Bool :=
  match e.inst with
  | some i => i.start.isSome
  | none => false

/-- The entry's start hook (when there is one) returns normally. -/
def startOkB (e : MEntry) : Bool :=
  match e.inst with
  | some i =>
    match i.start with
    | some (Outcome.throws _) => false
    | _ => true
  | none => true

/-- Whether the all-modules walk of `start` invokes the hook stored under
`id` in pool `pool`. -/
def startsNow (conf : Conf) (pool : List (String × MEntry)) (id : String) : Bool :=
  !autostartOff conf id &&
    (match plookup pool id with
     | some e => startable e
     | none => false)

/-- The ids whose start hooks a bare `start()` invokes: pool order, skipping
`autostart: false` opt-outs and entries with no instance or no hook. -/
def startTargets (conf : Conf) (ms : List (String × MEntry)) : List String :=
  (ms.filter (fun p => !autostartOff conf p.1 && startable p.2)).map Prod.fst

theorem plookup_isSome_of_mem_keys {α : Type} (l : List (String × α)) (id : String)
    (h : id ∈ l.map Prod.fst) : (plookup l id).isSome = true := by
  induction l with
  | nil => simp at h
  | cons p t ih =>
    by_cases hp : p.1 = id
    · simp [plookup, hp]
    · rw [List.map_cons, List.mem_cons] at h
      rcases h with h | h

      · exact absurd h.symm hp
      · simp [plookup, hp, ih h]

theorem startAll_ok (conf : Conf) (pool : List (String × MEntry))
    (hok : ∀ p ∈ pool, startOkB p.2 = true) :
    ∀ ids (t : MState), t.modules = pool →
      (∀ id ∈ ids, (plookup pool id).isSome = true) →
      startAll conf ids t
        = ({ t with started := t.started ++ ids.filter (startsNow conf pool) }, none) := by
  intro ids
  induction ids with
  | nil => intro t ht _; simp [startAll]
  | cons id rest ih =>
    intro t ht hin
    have hinr : ∀ i ∈ rest, (plookup pool i).isSome = true :=
      fun i hi => hin i (List.mem_cons_of_mem _ hi)
    by_cases hoff : autostartOff conf id
    · have hns : startsNow conf pool id = false := by simp [startsNow, hoff]
      simp [startAll, hoff, hns, ih t ht hinr]
    · obtain ⟨e, he⟩ := Option.isSome_iff_exists.mp (hin id (List.mem_cons_self _ _))
      have he' : plookup t.modules id = some e := by rw [ht]; exact he
      have hokid := hok (id, e) (plookup_mem _ _ _ he)
      cases hi : e.inst with
      | none =>
        have hns : startsNow conf pool id = false := by
          simp [startsNow, hoff, he, startable, hi]
        simp [startAll, hoff, startModule, he', hi, hns, ih t ht hinr]
      | some i =>
        cases hst : i.start with
        | none =>
          have hns : startsNow conf pool id = false := by
            simp [startsNow, hoff, he, startable, hi, hst]
          simp [startAll, hoff, startModule, he', hi, hst, hns, ih t ht hinr]
        | some o =>
          cases o with
          | ok =>
            have hns : startsNow conf pool id = true := by
              simp [startsNow, hoff, he, startable, hi, hst]
            have h2 := ih { t with started := t.started ++ [id] } ht hinr
            simp [startAll, hoff, startModule, he', hi, hst, hns, h2]
          | throws err =>
            exfalso
            simp [startOkB, hi, hst] at hokid


theorem startTargets_eq (conf : Conf) (l : List (String × MEntry))
    (hnd : (l.map Prod.fst).Nodup) :
    (l.map Prod.fst).filter (startsNow conf l) = startTargets conf l := by
  induction l with
  | nil => simp [startTargets]
  | cons p t ih =>
    have hnd2 : p.1 ∉ t.map Prod.fst ∧ (t.map Prod.fst).Nodup := by
      rw [List.map_cons, List.nodup_cons] at hnd
      exact hnd
    have hhead : startsNow conf (p :: t) p.1
        = (!autostartOff conf p.1 && startable p.2) := by
      simp [startsNow, plookup]
    have hrest : (t.map Prod.fst).filter (startsNow conf (p :: t))
        = (t.map Prod.fst).filter (startsNow conf t) := by
      refine List.filter_congr ?_
      intro id hid
      have hne : p.1 ≠ id := fun h => hnd2.1 (h ▸ hid)
      simp [startsNow, plookup, hne]
    simp only [List.map_cons, List.filter_cons, hhead, hrest, ih hnd2.2, startTargets]
    by_cases hc : (!autostartOff conf p.1 && startable p.2) = true
    · simp [hc]
    · simp only [Bool.not_eq_true] at hc
      simp [hc]

/-- C7 (amended): provided no invoked start hook throws (start-hook faults
are not caught and abort the walk), a bare `start()` invokes the start
hook of every registered instantiated module in registration order except
those opted out with `autostart: false`; `start('x')` invokes module
`x`'s hook regardless of its autostart setting. -/
theorem start_semantics (conf : Conf) (s : MState)
    (hnd : (s.modules.map Prod.fst).Nodup)
    (hok : ∀ p ∈ s.modules, startOkB p.2 = true) :
    start LifeArg.elseA conf s
      = ({ s with started := s.started ++ startTargets conf s.modules,
                  events := s.events ++ [Event.afterStart] }, none)
    ∧ ∀ x e i, plookup s.modules x = some e → e.inst = some i →
        i.start = some Outcome.ok →
        start (LifeArg.strA x) conf s
          = ({ s with started := s.started ++ [x],
                      events := s.events ++ [Event.afterStart] }, none) := by
  constructor
  · have hall := startAll_ok conf s.modules hok (s.modules.map Prod.fst) s rfl
      (fun id hid => plookup_isSome_of_mem_keys _ _ hid)
    rw [startTargets_eq conf s.modules hnd] at hall
    simp [start, hall]
  · intro x e i hx hi hs
    simp [start, startModule, hx, hi, hs]

def confC7 : Conf :=
  { debug := false, logErrorsViaConsole := true,
    modules := fun id => if id = "b" then some { autostart := some false } else none }

def sC7 : MState :=
  { modules := [("a", MEntry.mk (some creatorW) (some instW)),
                ("b", MEntry.mk (some creatorW) (some instW)),
                ("c", MEntry.mk (some creatorW) none)],
    extensions := [], events := [], initDone := true, invoked := [],
    started := [], hasMediator := true }

/-- C7 witness: `a` starts, `b` is skipped by `autostart: false`,
uninstantiated `c` is a silent no-op; `start('b')` starts `b` anyway. -/
theorem start_semantics_witness :
    start LifeArg.elseA confC7 sC7
      = ({ sC7 with started := sC7.started ++ startTargets confC7 sC7.modules,
                    events := sC7.events ++ [Event.afterStart] }, none)
    ∧ start (LifeArg.strA "b") confC7 sC7
      = ({ sC7 with started := sC7.started ++ ["b"],
                    events := sC7.events ++ [Event.afterStart] }, none) := by
  have h := start_semantics confC7 sC7 (by decide) (by decide)
  exact ⟨h.1, h.2 "b" (MEntry.mk (some creatorW) (some instW)) instW (by decide) rfl rfl⟩

def instThrow : Instance := { start := some (Outcome.throws "startboom"), stop := none }

def sC7bad : MState :=
  { modules := [("a", MEntry.mk (some creatorW) (some instThrow)),
                ("b", MEntry.mk (some creatorW) (some instW))],
    extensions := [], events := [], initDone := true, invoked := [],
    started := [], hasMediator := true }

/-- C7 counterexample: no module opts out and both are instantiated with
start hooks, yet `start()` does not invoke `b`'s hook — `a`'s hook throws,
the fault propagates out of `start` and the walk aborts. -/
theorem start_all_aborts_on_fault :
    (start LifeArg.elseA confW sC7bad).2 = some "startboom"
    ∧ (start LifeArg.elseA confW sC7bad).1.started = ["a"]
    ∧ "b" ∉ (start LifeArg.elseA confW sC7bad).1.started := by
  decide

/-!
Heap model of `extend` (source lines 86-148), the jQuery-style merge.
Values live in an explicit store so that reference identity, in-place
mutation of the target and aliasing between arguments are expressible —
`extend` mutates its target, reuses target slots as clones in deep mode
and assigns source values by reference, so the claims about mutation only
make sense over a heap.
-/

namespace H

/-- A heap address. -/
abbrev Loc := Nat

/-- A JS value: a reference to a heap object, or a primitive.  Functions are
not needed by the merge claims and are not modelled as values. -/
inductive Val where
  | vloc (l : Loc)
  | vnum (n : Int)
  | vstr (s : String)
  | vbool (b : Bool)
  | vnull
  | vundef
deriving DecidableEq

/-- Classification of a heap object, fixed at allocation: a plain record
(`isPlainObject` true), an array (`Array.isArray` true), or an opaque host
object (DOM node, window, class instance, ...) which `extend` never
recurses into. -/
inductive OKind where
  | plain
  | arr
  | host
deriving DecidableEq

/-- A heap object: its classification plus its own enumerable properties in
insertion order (for arrays the index keys "0", "1", ... in order). -/
structure Obj where
  kind : OKind
  entries : List (String × Val)
deriving DecidableEq

/-- The heap: contents per address, plus the next fresh address. -/
structure Store where
  objs : Loc → Option Obj
  next : Loc

/-- `truthy v`: JS boolean coercion, used by `copy &&` and `src &&`. -/
def truthy : Val → Bool
  | Val.vloc _ => true
  | Val.vnum n => n != 0
  | Val.vstr s => s != ""
  | Val.vbool b => b
  | Val.vnull => false
  | Val.vundef => false

/-- Classification of the object at an address, `none` when unallocated. -/
def kindOf (σ : Store) (l : Loc) : Option OKind := (σ.objs l).map Obj.kind

/-- `obj[name]` for the object at address `l` (`undefined` is `none`). -/
def getEntry (σ : Store) (l : Loc) (k : String) : Option Val :=
  (σ.objs l).bind (fun o => plookup o.entries k)

/-- Property write on an entry list: overwrite in place when the key exists,
append otherwise (JS property insertion order). -/
def assocSet : List (String × Val) → String → Val → List (String × Val)
  | [], k, v => [(k, v)]
  | p :: t, k, v => if p.1 = k then (p.1, v) :: t else p :: assocSet t k v

/-- `target[name] = v`: mutate the object at address `l` in place. -/
def setEntry (σ : Store) (l : Loc) (k : String) (v : Val) : Store :=
  { objs := fun x =>
      if x = l then (σ.objs l).map (fun o => Obj.mk o.kind (assocSet o.entries k v))
      else σ.objs x,
    next := σ.next }

/-- Allocate a fresh empty object (`{}` or `[]`) of the given kind. -/
def alloc (σ : Store) (kind : OKind) : Loc × Store :=
  (σ.next,
   { objs := fun x => if x = σ.next then some (Obj.mk kind []) else σ.objs x,
     next := σ.next + 1 })

/-- The own enumerable keys of the object at `l`, in `for..in` order. -/
def keysOf (σ : Store) (l : Loc) : List String :=
  ((σ.objs l).map (fun o => o.entries.map Prod.fst)).getD []

/-- `clone = src && isArray(src) ? src : []` (resp. the `isPlainObject`
variant): reuse the existing target slot when it already has the matching
structural kind, else allocate a fresh empty one (lines 127-133). -/
def cloneFor (σ : Store) (tgt : Loc) (name : String) (kind : OKind) : Loc × Store :=
  match getEntry σ tgt name with
  | some (Val.vloc s) => if kindOf σ s = some kind then (s, σ) else alloc σ kind
  | _ => alloc σ kind

/-- The per-key body of the merge loop (lines 116-142): read
`copy = options[name]` and `src = target[name]`, skip on the
`target === copy` guard, recurse through `recur` on a plain/array copy in
deep mode writing the clone back under the key, skip `undefined`, and
otherwise assign `copy` by reference. -/
def keyStep (deep : Bool) (tgt src : Loc) (name : String) (σ : Store)
    (recur : Loc → Loc → Store → Store) : Store :=
  let copy := (getEntry σ src name).getD Val.vundef
  if copy = Val.vloc tgt then σ
  else
    match copy with
    | Val.vloc cl =>
      match kindOf σ cl with
      | some OKind.plain =>
        if deep then
          let c := cloneFor σ tgt name OKind.plain
          setEntry (recur c.1 cl c.2) tgt name (Val.vloc c.1)
        else setEntry σ tgt name (Val.vloc cl)
      | some OKind.arr =>
        if deep then
          let c := cloneFor σ tgt name OKind.arr
          setEntry (recur c.1 cl c.2) tgt name (Val.vloc c.1)
        else setEntry σ tgt name (Val.vloc cl)
      | _ => setEntry σ tgt name (Val.vloc cl)
    | Val.vundef => σ
    | v => setEntry σ tgt name v

/-- Work items of the merge: the walk over the remaining sources, the walk
over one source's key snapshot, and one key. -/
inductive Task where
  | srcsT (srcs : List Val)
  | keysT (src : Loc) (names : List String)
  | keyT (src : Loc) (name : String)

/-- Fuel-indexed execution of `extend`'s merge loops over the heap.  Fuel
only bounds the recursion depth; every claim instance runs with ample
fuel, and the frame lemmas below hold for every fuel.  Sources that are
`null`/`undefined` are skipped (`!= null`, line 114); other primitive
sources have no own enumerable properties here (the `for..in` over a
string's index properties is out of the merge claims' scope). -/
def extStep : Nat → Bool → Loc → Task → Store → Store
  | 0, _, _, _, σ => σ
  | Nat.succ f, deep, tgt, task, σ =>
    match task with
    | Task.srcsT [] => σ
    | Task.srcsT (sv :: rest) =>
      let σ1 :=
        match sv with
        | Val.vloc l => extStep f deep tgt (Task.keysT l (keysOf σ l)) σ
        | _ => σ
      extStep f deep tgt (Task.srcsT rest) σ1
    | Task.keysT _ [] => σ
    | Task.keysT src (name :: rest) =>
      extStep f deep tgt (Task.keysT src rest) (extStep f deep tgt (Task.keyT src name) σ)
    | Task.keyT src name =>
      keyStep deep tgt src name σ
        (fun cloneLoc cl σ1 => extStep f deep cloneLoc (Task.srcsT [Val.vloc cl]) σ1)

/-- The merge loop of `extend` (lines 112-144) over target address `tgt`. -/
def extendLoop (fuel : Nat) (deep : Bool) (tgt : Loc) (srcs : List Val) (σ : Store) : Store :=
  extStep fuel deep tgt (Task.srcsT srcs) σ

/-- Full `extend(...)` argument handling (lines 86-110): a leading literal
`true` selects deep mode and is consumed; a falsy or primitive target is
replaced by a fresh `{}`; when no sources remain the calling context
becomes the target and the single argument the source (self-extend). -/
def extendArgs (fuel : Nat) (thisv : Val) (args : List Val) (σ : Store) : Val × Store :=
  let p : Bool × Nat :=
    match args.headD Val.vundef with
    | Val.vbool true => (true, 1)
    | _ => (false, 0)
  let deep := p.1
  let tpos := p.2
  if tpos + 1 = args.length then
    match thisv with
    | Val.vloc tl => (thisv, extendLoop fuel deep tl (args.drop tpos) σ)
    | _ => (thisv, σ)
  else
    match args.getD tpos Val.vundef with
    | Val.vloc l => (Val.vloc l, extendLoop fuel deep l (args.drop (tpos + 1)) σ)
    | _ =>
      let a := alloc σ OKind.plain
      (Val.vloc a.1, extendLoop fuel deep a.1 (args.drop (tpos + 1)) a.2)

/-- Build a store from a list of objects at addresses 0, 1, ... -/
def mkStore (l : List Obj) : Store :=
  { objs := fun x => l[x]?, next := l.length }

/-! Claim C5 (corrected): deep merge of `{a:[1,2]}` then `{a:[3]}`. -/

/-- Heap for `extend(true, {}, {a:[1,2]}, {a:[3]})`: `{}` at 0, the two
source records at 1 and 3, their arrays at 2 and 4. -/
def s5 : Store := mkStore
  [Obj.mk OKind.plain [],
   Obj.mk OKind.plain [("a", Val.vloc 2)],
   Obj.mk OKind.arr [("0", Val.vnum 1), ("1", Val.vnum 2)],
   Obj.mk OKind.plain [("a", Val.vloc 4)],
   Obj.mk OKind.arr [("0", Val.vnum 3)]]

def r5 : Val × Store := extendArgs 50 Val.vundef [Val.vbool true, Val.vloc 0, Val.vloc 1, Val.vloc 3] s5

/-- C5 counterexample: in deep mode the value stored under `a` is NOT the
incoming sequence `[3]` — the clone (allocated at address 5) merges the
incoming array index-wise into the previous value `[1,2]`. -/
theorem deep_merge_array_claim_false :
    r5.1 = Val.vloc 0
    ∧ getEntry r5.2 0 "a" = some (Val.vloc 5)
    ∧ (r5.2.objs 5).map Obj.entries ≠ some [("0", Val.vnum 3)] := by
  decide

/-- C5 (amended): `extend(true, {}, {a:[1,2]}, {a:[3]})` yields `{a:[3,2]}` —
index 0 is overwritten by 3 and index 1 keeps 2 from the earlier source. -/
theorem deep_merge_array_result :
    r5.1 = Val.vloc 0
    ∧ getEntry r5.2 0 "a" = some (Val.vloc 5)
    ∧ r5.2.objs 5 = some (Obj.mk OKind.arr [("0", Val.vnum 3), ("1", Val.vnum 2)]) := by
  decide

/-! Claim C8: the mutation footprint of the merge. -/

/-- Heap reachability: addresses reachable from root `r` through object
entries. -/
inductive Reach (σ : Store) (r : Loc) : Loc → Prop where
  | refl : Reach σ r r
  | step {b c : Loc} {o : Obj} {k : String} :
      Reach σ r b → σ.objs b = some o → (k, Val.vloc c) ∈ o.entries → Reach σ r c

/-- An address reachable from one of the source arguments. -/
def SrcReach (σ : Store) (srcs : List Val) (l : Loc) : Prop :=
  ∃ r, Val.vloc r ∈ srcs ∧ Reach σ r l

/-- The region the merge may write to, relative to the initial store: the
addresses reachable from the target plus the fresh region at or above the
initial `next`. -/
def Safe (σ0 : Store) (t l : Loc) : Prop := Reach σ0 t l ∨ σ0.next ≤ l

/-- Execution invariant of the deep merge relative to the initial store `σ0`
and target root `t`: addresses beyond `next` are unallocated, `next` only
grows, addresses outside the safe region keep their initial contents, and
plain/array-valued entries of safe objects point into the safe region
(clones are target slots or fresh, and deep mode shallow-assigns only
non-structural values). -/
structure Inv (σ0 : Store) (t : Loc) (σ : Store) : Prop where
  nextLe : σ0.next ≤ σ.next
  frame : ∀ l, ¬ Safe σ0 t l → σ.objs l = σ0.objs l
  good : ∀ l, Safe σ0 t l → ∀ o, σ.objs l = some o →
    ∀ k b, (k, Val.vloc b) ∈ o.entries →
    (kindOf σ b = some OKind.plain ∨ kindOf σ b = some OKind.arr) → Safe σ0 t b
  wf : ∀ l, σ.next ≤ l → σ.objs l = none

theorem kindOf_setEntry (σ : Store) (l : Loc) (k : String) (v : Val) (x : Loc) :
    kindOf (setEntry σ l k v) x = kindOf σ x := by
  by_cases h : x = l
  · subst h
    simp only [kindOf, setEntry, if_pos rfl]
    cases σ.objs x <;> simp
  · simp [kindOf, setEntry, h]

theorem assocSet_mem (es : List (String × Val)) (k : String) (v : Val)
    (p : String × Val) (h : p ∈ assocSet es k v) : p ∈ es ∨ p = (k, v) := by
  induction es with
  | nil =>
    rw [assocSet] at h
    right
    simpa using h
  | cons q t ih =>
    rw [assocSet] at h
    by_cases hq : q.1 = k
    · rw [if_pos hq] at h
      rcases List.mem_cons.mp h with h1 | h1
      · right; rw [h1, hq]
      · left; exact List.mem_cons_of_mem _ h1
    · rw [if_neg hq] at h
      rcases List.mem_cons.mp h with h1 | h1
      · left; rw [h1]; exact List.mem_cons_self _ _
      · rcases ih h1 with h2 | h2
        · left; exact List.mem_cons_of_mem _ h2
        · right; exact h2

/-- The invariant holds initially on any well-formed store. -/
theorem Inv.base (σ0 : Store) (t : Loc)
    (hwf : ∀ x, σ0.next ≤ x → σ0.objs x = none) : Inv σ0 t σ0 := by
  refine ⟨le_refl _, fun _ _ => rfl, ?_, hwf⟩
  intro l hl o ho k b hb _
  rcases hl with hr | hn
  · exact Or.inl (Reach.step hr ho hb)
  · rw [hwf l hn] at ho; cases ho

/-- Writing a safe value under a key of a safe object preserves the
invariant. -/
theorem Inv.setEntryInv {σ0 : Store} {t : Loc} {σ : Store} (hInv : Inv σ0 t σ)
    {l : Loc} (hl : Safe σ0 t l) {kname : String} {v : Val}
    (hv : ∀ b, v = Val.vloc b →
      (kindOf σ b = some OKind.plain ∨ kindOf σ b = some OKind.arr) → Safe σ0 t b) :
    Inv σ0 t (setEntry σ l kname v) := by
  refine ⟨hInv.nextLe, ?_, ?_, ?_⟩
  · intro x hx
    have hxl : x ≠ l := fun h => hx (h ▸ hl)
    have h1 : (setEntry σ l kname v).objs x = σ.objs x := by simp [setEntry, hxl]
    rw [h1]; exact hInv.frame x hx
  · intro x hx o ho k b hb hkind
    rw [kindOf_setEntry] at hkind
    by_cases hxl : x = l
    · subst hxl
      have ho' : (σ.objs x).map (fun o => Obj.mk o.kind (assocSet o.entries kname v)) = some o := by
        simpa [setEntry] using ho
      rcases Option.map_eq_some'.mp ho' with ⟨o0, ho0, rfl⟩
      rcases assocSet_mem o0.entries kname v (k, Val.vloc b) hb with h1 | h1
      · exact hInv.good x hx o0 ho0 k b h1 hkind
      · exact hv b (congrArg Prod.snd h1).symm hkind
    · have ho' : σ.objs x = some o := by
        have h2 : (setEntry σ l kname v).objs x = σ.objs x := by simp [setEntry, hxl]
        rw [← h2]; exact ho
      exact hInv.good x hx o ho' k b hb hkind
  · intro x hx
    by_cases hxl : x = l
    · subst hxl
      have h2 : σ.objs x = none := hInv.wf x hx
      simp [setEntry, h2]
    · have h2 : (setEntry σ l kname v).objs x = σ.objs x := by simp [setEntry, hxl]
      rw [h2]; exact hInv.wf x hx

/-- Allocating a fresh object preserves the invariant, and the fresh address
is safe. -/
theorem Inv.allocInv {σ0 : Store} {t : Loc} {σ : Store} (hInv : Inv σ0 t σ)
    (kind : OKind) :
    Safe σ0 t (alloc σ kind).1 ∧ Inv σ0 t (alloc σ kind).2 := by
  have hsafe : Safe σ0 t σ.next := Or.inr hInv.nextLe
  refine ⟨hsafe, ⟨?_, ?_, ?_, ?_⟩⟩
  · exact le_trans hInv.nextLe (Nat.le_succ _)
  · intro x hx
    have hxn : x ≠ σ.next := fun h => hx (h ▸ hsafe)
    have h1 : (alloc σ kind).2.objs x = σ.objs x := by simp [alloc, hxn]
    rw [h1]; exact hInv.frame x hx
  · intro x hx o ho k b hb hkind
    by_cases hxn : x = σ.next
    · have h2 : (alloc σ kind).2.objs x = some (Obj.mk kind []) := by simp [alloc, hxn]
      rw [h2] at ho
      have h1 : o = Obj.mk kind [] := (Option.some.inj ho).symm
      rw [h1] at hb; simp at hb
    · have ho' : σ.objs x = some o := by
        have h2 : (alloc σ kind).2.objs x = σ.objs x := by simp [alloc, hxn]
        rw [← h2]; exact ho
      by_cases hbn : b = σ.next
      · rw [hbn]; exact hsafe
      · have hkind' : kindOf σ b = some OKind.plain ∨ kindOf σ b = some OKind.arr := by
          have heq : kindOf (alloc σ kind).2 b = kindOf σ b := by simp [alloc, kindOf, hbn]
          rw [heq] at hkind; exact hkind
        exact hInv.good x hx o ho' k b hb hkind'
  · intro x hx
    have h1 : σ.next + 1 ≤ x := hx
    have hxn : x ≠ σ.next := by
      intro he
      rw [he] at h1
      exact Nat.not_succ_le_self _ h1
    have h2 : (alloc σ kind).2.objs x = σ.objs x := by simp [alloc, hxn]
    rw [h2]
    exact hInv.wf x (Nat.le_of_succ_le h1)

theorem getEntry_some {σ : Store} {l : Loc} {name : String} {v : Val}
    (h : getEntry σ l name = some v) :
    ∃ o, σ.objs l = some o ∧ (name, v) ∈ o.entries := by
  unfold getEntry at h
  cases ho : σ.objs l with
  | none => rw [ho] at h; cases h
  | some o =>
    rw [ho] at h
    exact ⟨o, rfl, plookup_mem _ _ _ h⟩

/-- The clone slot chosen for a plain/array copy is safe, and picking it
preserves the invariant. -/
theorem cloneFor_spec {σ0 : Store} {t : Loc} {σ : Store} (hInv : Inv σ0 t σ)
    {tgt : Loc} (htgt : Safe σ0 t tgt) (name : String) (kind : OKind)
    (hk : kind = OKind.plain ∨ kind = OKind.arr) :
    Safe σ0 t (cloneFor σ tgt name kind).1 ∧ Inv σ0 t (cloneFor σ tgt name kind).2 := by
  unfold cloneFor
  split
  · rename_i s hg
    by_cases hks : kindOf σ s = some kind
    · rw [if_pos hks]
      obtain ⟨o, ho, hmem⟩ := getEntry_some hg
      refine ⟨hInv.good tgt htgt o ho name s hmem ?_, hInv⟩
      rcases hk with h | h
      · rw [h] at hks; exact Or.inl hks
      · rw [h] at hks; exact Or.inr hks
    · rw [if_neg hks]; exact hInv.allocInv kind
  · exact hInv.allocInv kind

/-! Characterizations of `keyStep`, one per branch of the source. -/

theorem keyStep_guard (deep : Bool) (tgt src : Loc) (name : String) (σ : Store)
    (recur : Loc → Loc → Store → Store)
    (h : (getEntry σ src name).getD Val.vundef = Val.vloc tgt) :
    keyStep deep tgt src name σ recur = σ := by
  simp [keyStep, h]

theorem keyStep_undef (deep : Bool) (tgt src : Loc) (name : String) (σ : Store)
    (recur : Loc → Loc → Store → Store)
    (h : (getEntry σ src name).getD Val.vundef = Val.vundef) :
    keyStep deep tgt src name σ recur = σ := by
  simp [keyStep, h]

theorem keyStep_deep_plain (tgt src : Loc) (name : String) (σ : Store)
    (recur : Loc → Loc → Store → Store) (cl : Loc)
    (hcv : (getEntry σ src name).getD Val.vundef = Val.vloc cl)
    (hne : cl ≠ tgt) (hk : kindOf σ cl = some OKind.plain) :
    keyStep true tgt src name σ recur
      = setEntry
          (recur (cloneFor σ tgt name OKind.plain).1 cl (cloneFor σ tgt name OKind.plain).2)
          tgt name (Val.vloc (cloneFor σ tgt name OKind.plain).1) := by
  simp [keyStep, hcv, hne, hk]

theorem keyStep_deep_arr (tgt src : Loc) (name : String) (σ : Store)
    (recur : Loc → Loc → Store → Store) (cl : Loc)
    (hcv : (getEntry σ src name).getD Val.vundef = Val.vloc cl)
    (hne : cl ≠ tgt) (hk : kindOf σ cl = some OKind.arr) :
    keyStep true tgt src name σ recur
      = setEntry
          (recur (cloneFor σ tgt name OKind.arr).1 cl (cloneFor σ tgt name OKind.arr).2)
          tgt name (Val.vloc (cloneFor σ tgt name OKind.arr).1) := by
  simp [keyStep, hcv, hne, hk]

theorem keyStep_loc_assign (deep : Bool) (tgt src : Loc) (name : String) (σ : Store)
    (recur : Loc → Loc → Store → Store) (cl : Loc)
    (hcv : (getEntry σ src name).getD Val.vundef = Val.vloc cl)
    (hne : cl ≠ tgt)
    (hk : kindOf σ cl = none ∨ kindOf σ cl = some OKind.host ∨ deep = false) :
    keyStep deep tgt src name σ recur = setEntry σ tgt name (Val.vloc cl) := by
  rcases hk with hk | hk | hk
  · simp [keyStep, hcv, hne, hk]
  · simp [keyStep, hcv, hne, hk]
  · subst hk
    rcases hk2 : kindOf σ cl with _ | k
    · simp [keyStep, hcv, hne, hk2]
    · cases k <;> simp [keyStep, hcv, hne, hk2]

theorem keyStep_prim (deep : Bool) (tgt src : Loc) (name : String) (σ : Store)
    (recur : Loc → Loc → Store → Store) (v : Val)
    (hcv : (getEntry σ src name).getD Val.vundef = v)
    (hv : (match v with
           | Val.vloc _ => False
           | Val.vundef => False
           | _ => True)) :
    keyStep deep tgt src name σ recur = setEntry σ tgt name v := by
  cases v with
  | vloc l => cases hv
  | vundef => cases hv
  | vnum n => simp [keyStep, hcv]
  | vstr s2 => simp [keyStep, hcv]
  | vbool b2 => simp [keyStep, hcv]
  | vnull => simp [keyStep, hcv]

/-- One key of the deep merge preserves the invariant, provided the
recursive merge does. -/
theorem keyStep_inv {σ0 : Store} {t : Loc} (tgt src : Loc) (name : String)
    (σ : Store) (recur : Loc → Loc → Store → Store)
    (hInv : Inv σ0 t σ) (htgt : Safe σ0 t tgt)
    (hrec : ∀ c cl σ1, Inv σ0 t σ1 → Safe σ0 t c → Inv σ0 t (recur c cl σ1)) :
    Inv σ0 t (keyStep true tgt src name σ recur) := by
  rcases hcv : (getEntry σ src name).getD Val.vundef with cl | n | s2 | b2 | _ | _
  case vloc =>
    by_cases hg : cl = tgt
    · rw [keyStep_guard true tgt src name σ recur (by rw [hcv, hg])]
      exact hInv
    · rcases hk : kindOf σ cl with _ | k
      · rw [keyStep_loc_assign true tgt src name σ recur cl hcv hg (Or.inl hk)]
        refine hInv.setEntryInv htgt ?_
        intro b heq hkind
        injection heq with h
        rw [← h, hk] at hkind
        rcases hkind with h2 | h2 <;> cases h2
      · cases k with
        | plain =>
          rw [keyStep_deep_plain tgt src name σ recur cl hcv hg hk]
          obtain ⟨hcs, hci⟩ := cloneFor_spec hInv htgt name OKind.plain (Or.inl rfl)
          refine Inv.setEntryInv (hrec _ cl _ hci hcs) htgt ?_
          intro b heq _
          injection heq with h
          exact h ▸ hcs
        | arr =>
          rw [keyStep_deep_arr tgt src name σ recur cl hcv hg hk]
          obtain ⟨hcs, hci⟩ := cloneFor_spec hInv htgt name OKind.arr (Or.inr rfl)
          refine Inv.setEntryInv (hrec _ cl _ hci hcs) htgt ?_
          intro b heq _
          injection heq with h
          exact h ▸ hcs
        | host =>
          rw [keyStep_loc_assign true tgt src name σ recur cl hcv hg (Or.inr (Or.inl hk))]
          refine hInv.setEntryInv htgt ?_
          intro b heq hkind
          injection heq with h
          rw [← h, hk] at hkind
          rcases hkind with h2 | h2 <;> cases h2
  case vnum =>
    rw [keyStep_prim true tgt src name σ recur (Val.vnum n) hcv trivial]
    exact hInv.setEntryInv htgt (fun b heq _ => by cases heq)
  case vstr =>
    rw [keyStep_prim true tgt src name σ recur (Val.vstr s2) hcv trivial]
    exact hInv.setEntryInv htgt (fun b heq _ => by cases heq)
  case vbool =>
    rw [keyStep_prim true tgt src name σ recur (Val.vbool b2) hcv trivial]
    exact hInv.setEntryInv htgt (fun b heq _ => by cases heq)
  case vnull =>
    rw [keyStep_prim true tgt src name σ recur Val.vnull hcv trivial]
    exact hInv.setEntryInv htgt (fun b heq _ => by cases heq)
  case vundef =>
    rw [keyStep_undef true tgt src name σ recur hcv]
    exact hInv

/-- Every step of the deep merge preserves the invariant. -/
theorem extStep_inv (σ0 : Store) (t : Loc) (f : Nat) :
    ∀ (tgt : Loc) (task : Task) (σ : Store),
      Inv σ0 t σ → Safe σ0 t tgt → Inv σ0 t (extStep f true tgt task σ) := by
  induction f with
  | zero => intro tgt task σ h _; exact h
  | succ f ih =>
    intro tgt task σ hInv htgt
    cases task with
    | srcsT svs =>
      cases svs with
      | nil => exact hInv
      | cons sv rest =>
        cases sv with
        | vloc l =>
          exact ih tgt (Task.srcsT rest) _
            (ih tgt (Task.keysT l (keysOf σ l)) σ hInv htgt) htgt
        | vnum n => exact ih tgt (Task.srcsT rest) σ hInv htgt
        | vstr s => exact ih tgt (Task.srcsT rest) σ hInv htgt
        | vbool b => exact ih tgt (Task.srcsT rest) σ hInv htgt
        | vnull => exact ih tgt (Task.srcsT rest) σ hInv htgt
        | vundef => exact ih tgt (Task.srcsT rest) σ hInv htgt
    | keysT src names =>
      cases names with
      | nil => exact hInv
      | cons name rest =>
        exact ih tgt (Task.keysT src rest) _
          (ih tgt (Task.keyT src name) σ hInv htgt) htgt
    | keyT src name =>
      exact keyStep_inv tgt src name σ _ hInv htgt
        (fun c cl σ1 h1 h2 => ih c (Task.srcsT [Val.vloc cl]) σ1 h1 h2)

/-- In shallow mode one key either does nothing or writes one property of
the target object. -/
theorem keyStep_false_shape (tgt src : Loc) (name : String) (σ : Store)
    (recur : Loc → Loc → Store → Store) :
    keyStep false tgt src name σ recur = σ
    ∨ ∃ v, keyStep false tgt src name σ recur = setEntry σ tgt name v := by
  rcases hcv : (getEntry σ src name).getD Val.vundef with cl | n | s2 | b2 | _ | _
  case vloc =>
    by_cases hg : cl = tgt
    · exact Or.inl (keyStep_guard false tgt src name σ recur (by rw [hcv, hg]))
    · exact Or.inr ⟨Val.vloc cl,
        keyStep_loc_assign false tgt src name σ recur cl hcv hg (Or.inr (Or.inr rfl))⟩
  case vnum =>
    exact Or.inr ⟨Val.vnum n, keyStep_prim false tgt src name σ recur _ hcv trivial⟩
  case vstr =>
    exact Or.inr ⟨Val.vstr s2, keyStep_prim false tgt src name σ recur _ hcv trivial⟩
  case vbool =>
    exact Or.inr ⟨Val.vbool b2, keyStep_prim false tgt src name σ recur _ hcv trivial⟩
  case vnull =>
    exact Or.inr ⟨Val.vnull, keyStep_prim false tgt src name σ recur _ hcv trivial⟩
  case vundef =>
    exact Or.inl (keyStep_undef false tgt src name σ recur hcv)

/-- In shallow mode one key writes only to the target object. -/
theorem keyStep_false_frame (tgt src : Loc) (name : String) (σ : Store)
    (recur : Loc → Loc → Store → Store) :
    (∀ x, x ≠ tgt → (keyStep false tgt src name σ recur).objs x = σ.objs x)
    ∧ (keyStep false tgt src name σ recur).next = σ.next := by
  rcases keyStep_false_shape tgt src name σ recur with h | ⟨v, h⟩
  · rw [h]; exact ⟨fun _ _ => rfl, rfl⟩
  · rw [h]
    exact ⟨fun x hx => by simp [setEntry, hx], rfl⟩

/-- In shallow mode the whole merge writes only to the target object. -/
theorem extStep_false_frame (f : Nat) :
    ∀ (tgt : Loc) (task : Task) (σ : Store),
      (∀ x, x ≠ tgt → (extStep f false tgt task σ).objs x = σ.objs x)
      ∧ (extStep f false tgt task σ).next = σ.next := by
  induction f with
  | zero => intro tgt task σ; exact ⟨fun _ _ => rfl, rfl⟩
  | succ f ih =>
    intro tgt task σ
    cases task with
    | srcsT svs =>
      cases svs with
      | nil => exact ⟨fun _ _ => rfl, rfl⟩
      | cons sv rest =>
        cases sv with
        | vloc l =>
          have h1 := ih tgt (Task.keysT l (keysOf σ l)) σ
          have h2 := ih tgt (Task.srcsT rest) (extStep f false tgt (Task.keysT l (keysOf σ l)) σ)
          exact ⟨fun x hx => (h2.1 x hx).trans (h1.1 x hx), h2.2.trans h1.2⟩
        | vnum n => exact ih tgt (Task.srcsT rest) σ
        | vstr s => exact ih tgt (Task.srcsT rest) σ
        | vbool b => exact ih tgt (Task.srcsT rest) σ
        | vnull => exact ih tgt (Task.srcsT rest) σ
        | vundef => exact ih tgt (Task.srcsT rest) σ
    | keysT src names =>
      cases names with
      | nil => exact ⟨fun _ _ => rfl, rfl⟩
      | cons name rest =>
        have h1 := ih tgt (Task.keyT src name) σ
        have h2 := ih tgt (Task.keysT src rest) (extStep f false tgt (Task.keyT src name) σ)
        exact ⟨fun x hx => (h2.1 x hx).trans (h1.1 x hx), h2.2.trans h1.2⟩
    | keyT src name =>
      exact keyStep_false_frame tgt src name σ
        (fun cloneLoc cl σ1 => extStep f false cloneLoc (Task.srcsT [Val.vloc cl]) σ1)

/-- C8 (amended): the merge writes only into its target region and freshly
allocated clones, so every address reachable from a source that is not
reachable from the target (and is genuinely allocated) keeps its initial
contents — sources are never mutated as long as they share no heap
structure with the target.  The unrestricted claim fails under such
aliasing (see the counterexample). -/
theorem extend_no_source_mutation (fuel : Nat) (deep : Bool) (t : Loc)
    (srcs : List Val) (σ : Store) (l : Loc)
    (hwf : ∀ x, σ.next ≤ x → σ.objs x = none)
    (hs : SrcReach σ srcs l)
    (hnt : ¬ Reach σ t l) (hlt : l < σ.next) :
    (extendLoop fuel deep t srcs σ).objs l = σ.objs l := by
  cases deep with
  | false =>
    have h := extStep_false_frame fuel t (Task.srcsT srcs) σ
    exact h.1 l (fun h2 => hnt (by rw [h2]; exact Reach.refl))
  | true =>
    have h := extStep_inv σ t fuel t (Task.srcsT srcs) σ (Inv.base σ t hwf) (Or.inl Reach.refl)
    refine h.frame l ?_
    intro hsafe
    rcases hsafe with hr | hn
    · exact hnt hr
    · exact Nat.lt_irrefl l (Nat.lt_of_lt_of_le hlt hn)

theorem mkStore_wf (L : List Obj) :
    ∀ x, (mkStore L).next ≤ x → (mkStore L).objs x = none := by
  intro x hx
  simp only [mkStore] at hx ⊢
  exact List.getElem?_eq_none hx

/-- Disjoint two-object heap: target `{p:1}` at 0, source `{a:7}` at 1. -/
def sw : Store := mkStore
  [Obj.mk OKind.plain [("p", Val.vnum 1)],
   Obj.mk OKind.plain [("a", Val.vnum 7)]]

theorem reach_sw_zero : ∀ x, Reach sw 0 x → x = 0 := by
  intro x h
  induction h with
  | refl => rfl
  | step h1 h2 h3 ih =>
    subst ih
    rw [show sw.objs 0 = some (Obj.mk OKind.plain [("p", Val.vnum 1)]) from rfl] at h2
    injection h2 with h2
    subst h2
    simp at h3

/-- C8 witness: merging the disjoint source at 1 into the target at 0
leaves the source object untouched. -/
theorem extend_no_source_mutation_witness :
    (extendLoop 9 true 0 [Val.vloc 1] sw).objs 1 = sw.objs 1 :=
  extend_no_source_mutation 9 true 0 [Val.vloc 1] sw 1 (mkStore_wf _)
    ⟨1, by simp, Reach.refl⟩
    (fun h => absurd (reach_sw_zero 1 h) (by decide)) (by decide)

/-- Aliased heap: target `{p:1}` at 0, source `{a:7, b:&0}` at 1 — the
source reaches the target through its `b` property. -/
def sc8 : Store := mkStore
  [Obj.mk OKind.plain [("p", Val.vnum 1)],
   Obj.mk OKind.plain [("a", Val.vnum 7), ("b", Val.vloc 0)]]

def rc8 : Val × Store := extendArgs 9 Val.vundef [Val.vloc 0, Val.vloc 1] sc8

/-- C8 counterexample: `extend(t, s)` where `s.b === t`.  Address 0 is
reachable from the source, yet after the merge its contents changed (it
gained `a:7`) — a nested structure reachable from a source was mutated. -/
theorem extend_mutates_aliased_source :
    Reach sc8 1 0 ∧ rc8.2.objs 0 ≠ sc8.objs 0 := by
  constructor
  · exact Reach.step (o := Obj.mk OKind.plain [("a", Val.vnum 7), ("b", Val.vloc 0)]) (k := "b")
      Reach.refl (by decide) (by decide)
  · decide

end H

end EC
